import Mathlib

/-
Verification of the dotmd collaborative markdown editor.

The repository's own code is the editor component (src/components/markdown-editor.tsx):
its helpers (getUserColor), its callbacks (handleEditorChange, updateAwarenessCursor,
handleAwarenessChange, the provider error handler) and its session cleanup are embedded
below directly from that source.  The CRDT engine, the awareness store and the
provider destroy internals live in the external Yjs / y-protocols / y-supabase
libraries, which are not part of this repository; those parts are modelled from the
specification (each such definition carries a doc comment starting with
the words Modelled from the spec).
-/

/-- Identifier of one inserted unit: replica id plus per-replica counter (spec section 3). -/
structure Identifier where
  replica : Nat
  counter : Nat
deriving DecidableEq

/-- Total order on Identifiers: compare replica id first, then counter (spec section 3). -/
def idLt (a b : Identifier) : Prop :=
  a.replica < b.replica ∨ (a.replica = b.replica ∧ a.counter < b.counter)

instance (a b : Identifier) : Decidable (idLt a b) := by
  unfold idLt
  exact inferInstance

/-- Origin reference of an Item: the Identifier of a neighbour at insertion time,
or one of the two sentinels (spec section 3). -/
inductive Origin where
  | docStart
  | docEnd
  | ofId (i : Identifier)
deriving DecidableEq

/-- One inserted unit of content with its origin references and tombstone flag
(spec section 3). -/
structure Item where
  id : Identifier
  content : String
  originLeft : Origin
  originRight : Origin
  deleted : Bool
deriving DecidableEq

/-- Modelled from the spec: the SequenceCRDT document state (Yjs, not in src/) is an
arena of Items indexed by Identifier (spec section 9, cyclic neighbour references).
The arena is kept as a list strictly sorted by idLt on the item Identifiers. -/
def addItem : List Item → Item → List Item
  | [], it => [it]
  | x :: xs, it =>
    if it.id = x.id then x :: xs
    else if idLt it.id x.id then it :: x :: xs
    else x :: addItem xs it

/-- Modelled from the spec: integrate merges a remote or replayed Delta into the arena;
integrating an Identifier already present is a no-op (spec section 4.1, integrate). -/
def integrate (a : List Item) (d : List Item) : List Item :=
  d.foldl addItem a

/-- Integrating a whole delivery sequence, one Delta at a time. -/
def integrateAll (a : List Item) (ds : List (List Item)) : List Item :=
  ds.foldl integrate a

/-- All items carried by a list of Deltas. -/
def concatAll (ds : List (List Item)) : List Item :=
  ds.foldr (fun d acc => d ++ acc) []

/-- The arena is strictly sorted by Identifier. -/
abbrev IdSorted (l : List Item) : Prop :=
  List.Pairwise (fun x y => idLt x.id y.id) l

/-- Identifier coherence: Identifiers are never reused with different content
(spec section 3, Identifier immutable and never reused; section 7, ProtocolViolation). -/
abbrev Coh (l : List Item) : Prop :=
  ∀ x ∈ l, ∀ y ∈ l, x.id = y.id → x = y

/-- Index of the item carrying a given Identifier (the list length when absent). -/
def idIndex (i : Identifier) : List Item → Nat
  | [] => 0
  | x :: xs => if x.id = i then 0 else idIndex i xs + 1

/-- Position immediately after a left origin in the placed list (spec section 4.1). -/
def leftPos (placed : List Item) : Origin → Nat
  | Origin.docStart => 0
  | Origin.docEnd => placed.length
  | Origin.ofId i => idIndex i placed + 1

/-- Position of a right origin in the placed list (spec section 4.1). -/
def rightPos (placed : List Item) : Origin → Nat
  | Origin.docStart => 0
  | Origin.docEnd => placed.length
  | Origin.ofId i => idIndex i placed

/-- Whether an origin reference is resolvable against the placed list. -/
def originReady (placed : List Item) : Origin → Bool
  | Origin.docStart => true
  | Origin.docEnd => true
  | Origin.ofId i => placed.any (fun x => decide (x.id = i))

/-- Modelled from the spec: the YATA scan (spec section 4.1).  Starting right after the
new item's left origin, while the scanned item o is itself in conflict, i.e. o's own
origin interval also spans the insertion point, skip o whenever o's Identifier sorts
before the new item's under the Identifier total order; otherwise stop. -/
def scanFrom (placed : List Item) (it : Item) (L R : Nat) : Nat → Nat → Nat
  | i, 0 => i
  | i, fuel + 1 =>
    if i < R then
      match placed[i]? with
      | some o =>
        if leftPos placed o.originLeft ≤ R ∧ L ≤ rightPos placed o.originRight ∧
            idLt o.id it.id then
          scanFrom placed it L R (i + 1) fuel
        else i
      | none => i
    else i

/-- Modelled from the spec: place one item into the integrated list by the YATA scan
(spec section 4.1). -/
def yataInsert (placed : List Item) (it : Item) : List Item :=
  let L := leftPos placed it.originLeft
  let R := rightPos placed it.originRight
  let p := scanFrom placed it L R L (placed.length + 1)
  placed.take p ++ it :: placed.drop p

/-- Remove the first occurrence of an item from a list. -/
def removeItem (it : Item) : List Item → List Item
  | [] => []
  | x :: xs => if x = it then xs else x :: removeItem it xs

/-- Modelled from the spec: deterministic linearization of the arena.  Repeatedly take
the first remaining item whose origins are resolvable and place it by the YATA scan.
Per spec section 4.1 the final item order is a function of the item set alone,
tie-broken purely by Identifier comparison, independent of arrival order; the
linearization therefore recomputes that order from the Identifier-sorted arena. -/
def linearizeAux : Nat → List Item → List Item → List Item
  | 0, _, placed => placed
  | fuel + 1, remaining, placed =>
    match remaining.find?
        (fun x => originReady placed x.originLeft && originReady placed x.originRight) with
    | none => placed
    | some it => linearizeAux fuel (removeItem it remaining) (yataInsert placed it)

/-- The integrated item list of an arena. -/
def linearize (a : List Item) : List Item :=
  linearizeAux a.length a []

/-- The empty string. -/
def emptyText : String := ""

/-- Modelled from the spec: materialize concatenates non-deleted Item contents in list
order (spec section 4.1, materialize). -/
def materialize (a : List Item) : String :=
  ((linearize a).filter (fun it => !it.deleted)).foldl (fun s it => s ++ it.content) emptyText

/-- Modelled from the spec: translate a visible-text offset (ignoring tombstones) into
the pair of origin references of the insertion point (spec section 4.1, insert).
Items are single characters, so every visible offset falls on an item boundary. -/
def findOrigins : List Item → Nat → Origin → Origin × Origin
  | [], _, left => (left, Origin.docEnd)
  | x :: xs, off, left =>
    if off = 0 then (left, Origin.ofId x.id)
    else if x.deleted then findOrigins xs off (Origin.ofId x.id)
    else findOrigins xs (off - 1) (Origin.ofId x.id)

/-- Create the chained Items for one inserted string: the first item takes the captured
neighbour origins, each later item hangs off its predecessor (spec section 4.1). -/
def mkItems (replica : Nat) (ctr : Nat) (cs : List Char) (left right : Origin) : List Item :=
  match cs with
  | [] => []
  | c :: rest =>
    let it : Item := ⟨⟨replica, ctr⟩, String.singleton c, left, right, false⟩
    it :: mkItems replica (ctr + 1) rest (Origin.ofId it.id) right

/-- Modelled from the spec: a local insert at a visible-text offset creates fresh Items
with origin references captured from the current neighbours, integrates them locally and
returns the Delta to broadcast (spec section 4.1, insert). -/
def localInsert (replica ctr offset : Nat) (s : String) (a : List Item) :
    List Item × List Item :=
  let lin := linearize a
  let origins := findOrigins lin offset Origin.docStart
  let items := mkItems replica ctr s.data origins.1 origins.2
  (integrate a items, items)

/-- Scenario of spec section 8 item 1: replica 1 inserts into the empty document. -/
def r1Insert : List Item × List Item := localInsert 1 1 0 "abc" []

/-- Scenario of spec section 8 item 1: replica 2 concurrently inserts into the empty
document. -/
def r2Insert : List Item × List Item := localInsert 2 1 0 "xyz" []

/-- Replica 1 after integrating replica 2's Delta. -/
def replica1Final : List Item := integrate r1Insert.1 r2Insert.2

/-- Replica 2 after integrating replica 1's Delta. -/
def replica2Final : List Item := integrate r2Insert.1 r1Insert.2

/-- The operations handleEditorChange issues against the Y.Text
(src/components/markdown-editor.tsx). -/
inductive YOp where
  | delete (pos len : Nat)
  | insert (pos : Nat) (content : String)
deriving DecidableEq

/-- Editor-side state relevant to handleEditorChange: the React editorContent state,
the Y.Text content, whether the Yjs refs are non-null and whether the provider reports
synced (src/components/markdown-editor.tsx). -/
structure EditorModel where
  editorContent : String
  yText : String
  refsPresent : Bool
  synced : Bool
deriving DecidableEq

/-- Embedding of handleEditorChange (markdown-editor.tsx): always update the React
state; only when the refs are present and the provider is synced, and the new value
differs from the current Y.Text, run one transaction that deletes the whole Y.Text
and inserts the whole new value at offset 0. -/
def handleEditorChange (st : EditorModel) (newVal : String) : EditorModel × List YOp :=
  let st1 : EditorModel := { st with editorContent := newVal }
  if st1.refsPresent && st1.synced then
    if newVal = st1.yText then (st1, [])
    else ({ st1 with yText := newVal },
          [YOp.delete 0 st1.yText.length, YOp.insert 0 newVal])
  else (st1, [])

/-- Cursor value broadcast through awareness (markdown-editor.tsx). -/
structure CursorPos where
  anchor : Nat
  head : Nat
deriving DecidableEq

/-- The textarea selection read by updateAwarenessCursor (markdown-editor.tsx). -/
structure SelectionState where
  selectionStart : Nat
  selectionEnd : Nat
deriving DecidableEq

/-- Embedding of updateAwarenessCursor (markdown-editor.tsx): when the textarea and the
awareness instance exist and the provider is synced, broadcast the raw selection
offsets as the cursor field; otherwise broadcast nothing. -/
def updateAwarenessCursor (hasTextarea hasAwareness synced : Bool)
    (sel : SelectionState) : Option CursorPos :=
  if hasTextarea && hasAwareness && synced then
    some ⟨sel.selectionStart, sel.selectionEnd⟩
  else none

/-- The awareness store table: replica id mapped to its state payload and timestamp. -/
abbrev AwTable := List (Nat × String × Nat)

/-- Lookup of the stored entry for a replica. -/
def lookupEntry : AwTable → Nat → Option (String × Nat)
  | [], _ => none
  | (r1, s1, t1) :: rest, r => if r1 = r then some (s1, t1) else lookupEntry rest r

/-- Modelled from the spec: AwarenessStore.applyRemote (y-protocols, not in src/)
overwrites the stored entry for a replica if the update's timestamp is newer than the
stored one; otherwise the update is discarded (spec section 4.3). -/
def applyRemote : AwTable → Nat → String → Nat → AwTable
  | [], r, s, t => [(r, s, t)]
  | (r1, s1, t1) :: rest, r, s, t =>
    if r1 = r then
      if t1 < t then (r, s, t) :: rest else (r1, s1, t1) :: rest
    else (r1, s1, t1) :: applyRemote rest r s t

/-- Provider-side persistence state (the debounced save machinery of y-supabase). -/
structure ProviderState where
  pendingSaveTimer : Bool
  docState : String
  savedState : Option String
  subscribed : Bool
deriving DecidableEq

/-- Resources of one document session touched by the cleanup effect
(markdown-editor.tsx). -/
structure SessionState where
  prov : ProviderState
  awarenessActive : Bool
  leaveBroadcast : Bool
  handlersBound : Bool
  docAlive : Bool
deriving DecidableEq

/-- Modelled from the spec: SupabaseProvider.destroy (y-supabase, not in src/) cancels
the pending debounced persistence timer, performs one final best-effort synchronous
save attempt of the current state, and releases the transport subscription
(spec section 5, Cancellation; section 4.4, Closed). -/
def providerDestroy (p : ProviderState) : ProviderState :=
  { p with pendingSaveTimer := false, savedState := some p.docState, subscribed := false }

/-- Modelled from the spec: Awareness.destroy (y-protocols, not in src/) broadcasts an
awareness leave for the local replica (spec section 4.4, Closed). -/
def awarenessDestroy (s : SessionState) : SessionState :=
  { s with awarenessActive := false, leaveBroadcast := true }

/-- Embedding of the session cleanup (markdown-editor.tsx, Yjs init effect cleanup):
unbind the change handlers, destroy the awareness instance, destroy the provider,
then destroy the Y.Doc. -/
def sessionCleanup (s : SessionState) : SessionState :=
  let s1 : SessionState := { s with handlersBound := false }
  let s2 := awarenessDestroy s1
  let s3 : SessionState := { s2 with prov := providerDestroy s2.prov }
  { s3 with docAlive := false }

/-- Toast message shown by the provider error handler (markdown-editor.tsx). -/
def syncErrorToast : String := "Sync Error"

/-- One editor session as seen by the provider error handler: the editing state plus
the console log and the toast list (markdown-editor.tsx). -/
structure CoordinatorSession where
  editor : EditorModel
  errorLog : List String
  toasts : List String
deriving DecidableEq

/-- Embedding of the provider error handler (markdown-editor.tsx): a provider error is
logged to the console and surfaced as a toast; nothing else in the session changes and
the session is not torn down. -/
def handleProviderError (s : CoordinatorSession) (e : String) : CoordinatorSession :=
  { s with errorLog := s.errorLog ++ [e], toasts := s.toasts ++ [syncErrorToast] }

/-- The fixed 15-color palette of getUserColor (markdown-editor.tsx). -/
def colors : List String :=
  ["#30bced", "#6eeb83", "#ffbc42", "#ecd444", "#ee6352",
   "#9ac2c9", "#8acb88", "#fefe62", "#ffb703", "#fb8500",
   "#EF767A", "#456990", "#49BEAA", "#A8D0E6", "#F7AEF8"]

/-- Wrap an integer to JavaScript 32-bit signed semantics. -/
def toInt32 (n : Int) : Int :=
  (n + 2147483648) % 4294967296 - 2147483648

/-- One iteration of the getUserColor hash loop (markdown-editor.tsx):
hash = charCode + ((hash shifted left by 5) - hash), wrapped to a 32-bit integer. -/
def hashStep (h : Int) (c : Nat) : Int :=
  toInt32 ((c : Int) + (toInt32 (h * 32) - h))

/-- The string hash of getUserColor (markdown-editor.tsx), folded over the character
codes of the user id. -/
def hashStringJs (u : String) : Int :=
  u.data.foldl (fun h c => hashStep h c.toNat) 0

/-- Embedding of getUserColor (markdown-editor.tsx): index the palette by the absolute
value of the hash modulo the palette size. -/
def getUserColor (userId : String) : String :=
  List.getD colors ((hashStringJs userId).natAbs % colors.length) emptyText

/-- User identity carried in an awareness state (markdown-editor.tsx). -/
structure AUser where
  id : String
  email : String
  full_name : Option String
  avatar_url : Option String
deriving DecidableEq

/-- One remote awareness state value (markdown-editor.tsx): the user field may be
absent, as may the color and cursor fields. -/
structure AwState where
  user : Option AUser
  color : Option String
  cursor : Option CursorPos
deriving DecidableEq

/-- Entry of the activeUsers list (markdown-editor.tsx). -/
structure ActiveUser where
  id : String
  email : String
  full_name : Option String
  avatar_url : Option String
  color : String
  cursor : Option CursorPos
deriving DecidableEq

/-- JavaScript-style fallback for the color field: an absent or empty string is falsy
and falls back to the generated color (markdown-editor.tsx). -/
def jsOrString (v : Option String) (fallback : String) : String :=
  match v with
  | none => fallback
  | some s => if s.length = 0 then fallback else s

/-- Embedding of handleAwarenessChange (markdown-editor.tsx): keep only states that
carry a user whose id differs from the current user's, and map each to an ActiveUser
with the broadcast color (or a generated fallback) and the broadcast cursor. -/
def handleAwarenessChange (currentUserId : String) (states : List AwState) :
    List ActiveUser :=
  states.filterMap fun st =>
    match st.user with
    | none => none
    | some u =>
      if u.id = currentUserId then none
      else some { id := u.id, email := u.email, full_name := u.full_name,
                  avatar_url := u.avatar_url,
                  color := jsOrString st.color (getUserColor u.id),
                  cursor := st.cursor }

/-- Concrete Delta for the convergence witness: one item from replica 1. -/
def wDelta1 : List Item := [⟨⟨1, 1⟩, "a", Origin.docStart, Origin.docEnd, false⟩]

/-- Concrete Delta for the convergence witness: one item from replica 2. -/
def wDelta2 : List Item := [⟨⟨2, 1⟩, "b", Origin.docStart, Origin.docEnd, false⟩]

/-- The witness Delta set. -/
def wD : List (List Item) := [wDelta1, wDelta2]

/-- A first delivery order, with a duplicate delivery. -/
def wDs1 : List (List Item) := [wDelta1, wDelta2, wDelta1]

/-- A second delivery order. -/
def wDs2 : List (List Item) := [wDelta2, wDelta1]

/-- Concrete synced editor state for the edit-capture claims. -/
def wSynSt : EditorModel := ⟨"ab", "ab", true, true⟩

/-- The editor value after typing one character into wSynSt at visible offset 1. -/
def wEditNew : String := "aXb"

/-- The single character inserted in the wSynSt edit. -/
def wInsChar : String := "X"

/-- Concrete not-synced editor state. -/
def wOffSt : EditorModel := ⟨"", "", true, false⟩

/-- The local edit typed while not synced. -/
def wKey : String := "X"

/-- Stored awareness payload for the applyRemote witness. -/
def wPayloadOld : String := "cursor-old"

/-- Incoming awareness payload for the applyRemote witness. -/
def wPayloadNew : String := "cursor-new"

/-- Concrete awareness table with one entry at timestamp 5. -/
def wTable : AwTable := [(1, wPayloadOld, 5)]

/-- The current user's id for the activeUsers witness. -/
def wCu : String := "me"

/-- A remote user present in awareness. -/
def wRemoteUser : AUser := ⟨"you", "you at example", none, none⟩

/-- Concrete awareness states: one remote user and one state without a user. -/
def wStates : List AwState := [⟨some wRemoteUser, none, none⟩, ⟨none, none, none⟩]

/-- The ActiveUser computed from wStates for the remote user. -/
def wActive : ActiveUser :=
  ⟨wRemoteUser.id, wRemoteUser.email, none, none, getUserColor wRemoteUser.id, none⟩

/-- idLt is irreflexive. -/
theorem idLt_irrefl (a : Identifier) : ¬ idLt a a := by
  intro h
  rcases h with h | ⟨_, h⟩ <;> exact Nat.lt_irrefl _ h

/-- idLt is transitive. -/
theorem idLt_trans {a b c : Identifier} (h1 : idLt a b) (h2 : idLt b c) : idLt a c := by
  rcases h1 with h1 | ⟨e1, h1⟩ <;> rcases h2 with h2 | ⟨e2, h2⟩
  · exact Or.inl (Nat.lt_trans h1 h2)
  · rw [e2] at h1
    exact Or.inl h1
  · refine Or.inl ?_
    rw [e1]
    exact h2
  · exact Or.inr ⟨e1.trans e2, Nat.lt_trans h1 h2⟩

/-- idLt is total on distinct Identifiers. -/
theorem idLt_total {a b : Identifier} (h : ¬ a = b) : idLt a b ∨ idLt b a := by
  rcases Nat.lt_trichotomy a.replica b.replica with hr | hr | hr
  · exact Or.inl (Or.inl hr)
  · rcases Nat.lt_trichotomy a.counter b.counter with hc | hc | hc
    · exact Or.inl (Or.inr ⟨hr, hc⟩)
    · exfalso
      apply h
      cases a with
      | mk ar ac =>
        cases b with
        | mk br bc =>
          simp only at hr hc
          rw [hr, hc]
    · exact Or.inr (Or.inr ⟨hr.symm, hc⟩)
  · exact Or.inr (Or.inl hr)

/-- Everything in addItem a it comes from a or is it. -/
theorem mem_of_mem_addItem {a : List Item} {it x : Item} (h : x ∈ addItem a it) :
    x = it ∨ x ∈ a := by
  induction a with
  | nil =>
    simp only [addItem, List.mem_singleton] at h
    exact Or.inl h
  | cons y ys ih =>
    simp only [addItem] at h
    by_cases h1 : it.id = y.id
    · rw [if_pos h1] at h
      exact Or.inr h
    · rw [if_neg h1] at h
      by_cases h2 : idLt it.id y.id
      · rw [if_pos h2] at h
        rcases List.mem_cons.mp h with h | h
        · exact Or.inl h
        · exact Or.inr h
      · rw [if_neg h2] at h
        rcases List.mem_cons.mp h with h | h
        · exact Or.inr (h ▸ List.mem_cons_self y ys)
        · rcases ih h with h | h
          · exact Or.inl h
          · exact Or.inr (List.mem_cons_of_mem _ h)

/-- addItem never removes elements. -/
theorem mem_addItem_of_mem {a : List Item} {it x : Item} (h : x ∈ a) :
    x ∈ addItem a it := by
  induction a with
  | nil => cases h
  | cons y ys ih =>
    simp only [addItem]
    by_cases h1 : it.id = y.id
    · rw [if_pos h1]
      exact h
    · rw [if_neg h1]
      by_cases h2 : idLt it.id y.id
      · rw [if_pos h2]
        exact List.mem_cons_of_mem _ h
      · rw [if_neg h2]
        rcases List.mem_cons.mp h with h | h
        · rw [h]
          exact List.mem_cons_self _ _
        · exact List.mem_cons_of_mem _ (ih h)

/-- Under Identifier coherence the inserted item is present afterwards. -/
theorem self_mem_addItem {a : List Item} {it : Item}
    (hcoh : ∀ y ∈ a, y.id = it.id → y = it) : it ∈ addItem a it := by
  induction a with
  | nil => simp [addItem]
  | cons y ys ih =>
    simp only [addItem]
    by_cases h1 : it.id = y.id
    · rw [if_pos h1]
      have hy : y = it := hcoh y (List.mem_cons_self _ _) h1.symm
      rw [hy]
      exact List.mem_cons_self _ _
    · rw [if_neg h1]
      by_cases h2 : idLt it.id y.id
      · rw [if_pos h2]
        exact List.mem_cons_self _ _
      · rw [if_neg h2]
        exact List.mem_cons_of_mem _
          (ih (fun z hz => hcoh z (List.mem_cons_of_mem _ hz)))

/-- Membership in addItem, given Identifier coherence. -/
theorem mem_addItem_iff {a : List Item} {it x : Item}
    (hcoh : ∀ y ∈ a, y.id = it.id → y = it) :
    x ∈ addItem a it ↔ x = it ∨ x ∈ a := by
  constructor
  · exact mem_of_mem_addItem
  · intro h
    rcases h with h | h
    · subst h
      exact self_mem_addItem hcoh
    · exact mem_addItem_of_mem h

/-- addItem preserves strict Identifier sortedness. -/
theorem idSorted_addItem {a : List Item} {it : Item} (hs : IdSorted a) :
    IdSorted (addItem a it) := by
  induction a with
  | nil => simp [addItem]
  | cons y ys ih =>
    obtain ⟨hy, hys⟩ := List.pairwise_cons.mp hs
    simp only [addItem]
    by_cases h1 : it.id = y.id
    · rw [if_pos h1]
      exact hs
    · rw [if_neg h1]
      by_cases h2 : idLt it.id y.id
      · rw [if_pos h2]
        refine List.pairwise_cons.mpr ⟨?_, hs⟩
        intro z hz
        rcases List.mem_cons.mp hz with h | h
        · rw [h]
          exact h2
        · exact idLt_trans h2 (hy z h)
      · rw [if_neg h2]
        refine List.pairwise_cons.mpr ⟨?_, ih hys⟩
        intro z hz
        rcases mem_of_mem_addItem hz with h | h
        · rcases idLt_total (fun e => h1 e) with h3 | h3
          · exact absurd h3 h2
          · rw [h]
            exact h3
        · exact hy z h

/-- One fold step of integrate. -/
theorem integrate_cons (a : List Item) (p : Item) (rest : List Item) :
    integrate a (p :: rest) = integrate (addItem a p) rest := by
  simp [integrate]

/-- integrate preserves strict Identifier sortedness. -/
theorem idSorted_integrate {a d : List Item} (hs : IdSorted a) :
    IdSorted (integrate a d) := by
  induction d generalizing a with
  | nil => simpa [integrate] using hs
  | cons p rest ih =>
    rw [integrate_cons]
    exact ih (idSorted_addItem hs)

/-- Everything in integrate a d comes from a or from d. -/
theorem mem_of_mem_integrate {a d : List Item} {x : Item} (h : x ∈ integrate a d) :
    x ∈ a ∨ x ∈ d := by
  induction d generalizing a with
  | nil =>
    simp only [integrate, List.foldl_nil] at h
    exact Or.inl h
  | cons p rest ih =>
    rw [integrate_cons] at h
    rcases ih h with h | h
    · rcases mem_of_mem_addItem h with h | h
      · exact Or.inr (h ▸ List.mem_cons_self p rest)
      · exact Or.inl h
    · exact Or.inr (List.mem_cons_of_mem _ h)

/-- Coherence restricts along member inclusion. -/
theorem coh_mono {l l' : List Item} (hsub : ∀ x ∈ l', x ∈ l) (h : Coh l) : Coh l' :=
  fun x hx y hy => h x (hsub x hx) y (hsub y hy)

/-- Membership in integrate, given Identifier coherence of the combined pool. -/
theorem mem_integrate_iff {a d : List Item} {x : Item} (hcoh : Coh (a ++ d)) :
    x ∈ integrate a d ↔ x ∈ a ∨ x ∈ d := by
  induction d generalizing a with
  | nil => simp [integrate]
  | cons p rest ih =>
    rw [integrate_cons]
    have hpmem : p ∈ a ++ p :: rest :=
      List.mem_append.mpr (Or.inr (List.mem_cons_self _ _))
    have hcohp : ∀ y ∈ a, y.id = p.id → y = p := fun y hy e =>
      hcoh y (List.mem_append.mpr (Or.inl hy)) p hpmem e
    have hsub : ∀ z ∈ addItem a p ++ rest, z ∈ a ++ p :: rest := by
      intro z hz
      rcases List.mem_append.mp hz with hz | hz
      · rcases mem_of_mem_addItem hz with h | h
        · exact h ▸ hpmem
        · exact List.mem_append.mpr (Or.inl h)
      · exact List.mem_append.mpr (Or.inr (List.mem_cons_of_mem _ hz))
    rw [ih (coh_mono hsub hcoh), mem_addItem_iff hcohp]
    simp only [List.mem_cons]
    tauto

/-- One fold step of integrateAll. -/
theorem integrateAll_cons (a : List Item) (d : List Item) (rest : List (List Item)) :
    integrateAll a (d :: rest) = integrateAll (integrate a d) rest := by
  simp [integrateAll]

/-- integrateAll preserves strict Identifier sortedness. -/
theorem idSorted_integrateAll {a : List Item} {ds : List (List Item)}
    (hs : IdSorted a) : IdSorted (integrateAll a ds) := by
  induction ds generalizing a with
  | nil => simpa [integrateAll] using hs
  | cons d rest ih =>
    rw [integrateAll_cons]
    exact ih (idSorted_integrate hs)

/-- concatAll of a cons. -/
theorem concatAll_cons (d : List Item) (rest : List (List Item)) :
    concatAll (d :: rest) = d ++ concatAll rest := by
  simp [concatAll]

/-- Membership in concatAll. -/
theorem mem_concatAll {ds : List (List Item)} {x : Item} :
    x ∈ concatAll ds ↔ ∃ d, d ∈ ds ∧ x ∈ d := by
  induction ds with
  | nil => simp [concatAll]
  | cons d rest ih =>
    rw [concatAll_cons]
    simp only [List.mem_append, ih, List.mem_cons]
    constructor
    · intro h
      rcases h with h | ⟨e, he, hx⟩
      · exact ⟨d, Or.inl rfl, h⟩
      · exact ⟨e, Or.inr he, hx⟩
    · intro h
      rcases h with ⟨e, he | he, hx⟩
      · exact Or.inl (he ▸ hx)
      · exact Or.inr ⟨e, he, hx⟩

/-- Everything in integrateAll a ds comes from a or from one of the Deltas. -/
theorem mem_of_mem_integrateAll {a : List Item} {ds : List (List Item)} {x : Item}
    (h : x ∈ integrateAll a ds) : x ∈ a ∨ x ∈ concatAll ds := by
  induction ds generalizing a with
  | nil =>
    simp only [integrateAll, List.foldl_nil] at h
    exact Or.inl h
  | cons d rest ih =>
    rw [integrateAll_cons] at h
    rw [concatAll_cons]
    rcases ih h with h | h
    · rcases mem_of_mem_integrate h with h | h
      · exact Or.inl h
      · exact Or.inr (List.mem_append.mpr (Or.inl h))
    · exact Or.inr (List.mem_append.mpr (Or.inr h))

/-- Membership in integrateAll, given Identifier coherence of the combined pool. -/
theorem mem_integrateAll_iff {a : List Item} {ds : List (List Item)} {x : Item}
    (hcoh : Coh (a ++ concatAll ds)) :
    x ∈ integrateAll a ds ↔ x ∈ a ∨ x ∈ concatAll ds := by
  induction ds generalizing a with
  | nil => simp [integrateAll, concatAll]
  | cons d rest ih =>
    rw [integrateAll_cons]
    have hsub1 : ∀ z ∈ integrate a d ++ concatAll rest, z ∈ a ++ concatAll (d :: rest) := by
      intro z hz
      rw [concatAll_cons]
      rcases List.mem_append.mp hz with hz | hz
      · rcases mem_of_mem_integrate hz with h | h
        · exact List.mem_append.mpr (Or.inl h)
        · exact List.mem_append.mpr (Or.inr (List.mem_append.mpr (Or.inl h)))
      · exact List.mem_append.mpr (Or.inr (List.mem_append.mpr (Or.inr hz)))
    have hsub2 : ∀ z ∈ a ++ d, z ∈ a ++ concatAll (d :: rest) := by
      intro z hz
      rw [concatAll_cons]
      rcases List.mem_append.mp hz with hz | hz
      · exact List.mem_append.mpr (Or.inl hz)
      · exact List.mem_append.mpr (Or.inr (List.mem_append.mpr (Or.inl hz)))
    rw [ih (coh_mono hsub1 hcoh), mem_integrate_iff (coh_mono hsub2 hcoh), concatAll_cons]
    simp only [List.mem_append]
    tauto

/-- Two strictly Identifier-sorted arenas with the same members are equal. -/
theorem idSorted_ext : ∀ (l1 l2 : List Item), IdSorted l1 → IdSorted l2 →
    (∀ x, x ∈ l1 ↔ x ∈ l2) → l1 = l2 := by
  intro l1
  induction l1 with
  | nil =>
    intro l2 _ _ hm
    cases l2 with
    | nil => rfl
    | cons y ys => exact absurd ((hm y).mpr (List.mem_cons_self _ _)) (List.not_mem_nil y)
  | cons x xs ih =>
    intro l2 h1 h2 hm
    cases l2 with
    | nil => exact absurd ((hm x).mp (List.mem_cons_self _ _)) (List.not_mem_nil x)
    | cons y ys =>
      obtain ⟨hx, hxs⟩ := List.pairwise_cons.mp h1
      obtain ⟨hy, hys⟩ := List.pairwise_cons.mp h2
      have hxy : x = y := by
        have hx2 := (hm x).mp (List.mem_cons_self _ _)
        have hy1 := (hm y).mpr (List.mem_cons_self _ _)
        rcases List.mem_cons.mp hx2 with e | hx2
        · exact e
        · rcases List.mem_cons.mp hy1 with e | hy1
          · exact e.symm
          · exact absurd (idLt_trans (hx y hy1) (hy x hx2)) (idLt_irrefl x.id)
      subst hxy
      have hm' : ∀ z, z ∈ xs ↔ z ∈ ys := by
        intro z
        constructor
        · intro hz
          rcases List.mem_cons.mp ((hm z).mp (List.mem_cons_of_mem _ hz)) with e | h
          · exfalso
            subst e
            exact idLt_irrefl z.id (hx z hz)
          · exact h
        · intro hz
          rcases List.mem_cons.mp ((hm z).mpr (List.mem_cons_of_mem _ hz)) with e | h
          · exfalso
            subst e
            exact idLt_irrefl z.id (hy z hz)
          · exact h
      exact congrArg (List.cons x) (ih ys hxs hys hm')

/-- C1: Convergence. For every Delta set D and any two delivery sequences that both
deliver exactly the Deltas of D — in any order and with any number of duplicate
deliveries — two replicas of the same document that each integrate their sequence from
the common empty baseline materialize the same text.  The Identifier-coherence
hypothesis is the spec's rule that Identifiers are never reused with different
content. -/
theorem crdt_converges (D ds1 ds2 : List (List Item))
    (hcoh : Coh (concatAll D))
    (h1 : ∀ d, d ∈ ds1 ↔ d ∈ D)
    (h2 : ∀ d, d ∈ ds2 ↔ d ∈ D) :
    materialize (integrateAll [] ds1) = materialize (integrateAll [] ds2) := by
  have hm1 : ∀ x, x ∈ concatAll ds1 ↔ x ∈ concatAll D := by
    intro x
    rw [mem_concatAll, mem_concatAll]
    constructor
    · rintro ⟨d, hd, hx⟩
      exact ⟨d, (h1 d).mp hd, hx⟩
    · rintro ⟨d, hd, hx⟩
      exact ⟨d, (h1 d).mpr hd, hx⟩
  have hm2 : ∀ x, x ∈ concatAll ds2 ↔ x ∈ concatAll D := by
    intro x
    rw [mem_concatAll, mem_concatAll]
    constructor
    · rintro ⟨d, hd, hx⟩
      exact ⟨d, (h2 d).mp hd, hx⟩
    · rintro ⟨d, hd, hx⟩
      exact ⟨d, (h2 d).mpr hd, hx⟩
  have hc1 : Coh (([] : List Item) ++ concatAll ds1) := by
    apply coh_mono ?_ hcoh
    intro z hz
    rw [List.nil_append] at hz
    exact (hm1 z).mp hz
  have hc2 : Coh (([] : List Item) ++ concatAll ds2) := by
    apply coh_mono ?_ hcoh
    intro z hz
    rw [List.nil_append] at hz
    exact (hm2 z).mp hz
  have e : integrateAll [] ds1 = integrateAll [] ds2 := by
    apply idSorted_ext
    · exact idSorted_integrateAll List.Pairwise.nil
    · exact idSorted_integrateAll List.Pairwise.nil
    · intro x
      rw [mem_integrateAll_iff hc1, mem_integrateAll_iff hc2]
      simp only [List.not_mem_nil, false_or]
      rw [hm1 x, hm2 x]
  rw [e]

/-- Witness for C1 at a concrete Delta set, delivered in two different orders, one of
them with a duplicate delivery. -/
theorem crdt_converges_witness :
    materialize (integrateAll [] wDs1) = materialize (integrateAll [] wDs2) :=
  crdt_converges wD wDs1 wDs2 (by decide)
    (by intro d; simp [wDs1, wD]; tauto)
    (by intro d; simp [wDs2, wD]; tauto)

/-- C2, counterexample: the claim says a local edit is captured as an insert at the
visible-text offset of the change, not a whole-document replacement.  Editing "ab"
into "aXb" is a single-character insertion at visible offset 1, yet handleEditorChange
issues delete(0, 2) followed by insert(0, "aXb") — it deletes the retained characters
and reinserts the whole new content — and in particular does not issue the minimal
insert of "X" at offset 1. -/
theorem handleEditorChange_whole_replace_cex :
    (handleEditorChange wSynSt wEditNew).2 = [YOp.delete 0 2, YOp.insert 0 wEditNew] ∧
    (handleEditorChange wSynSt wEditNew).2 ≠ [YOp.insert 1 wInsChar] := by
  decide

/-- C2, amended: on a local edit while the refs are present and the provider is
synced, whenever the new editor value differs from the current Y.Text the editor
replaces the whole document content in one transaction — delete of the entire Y.Text
followed by insert of the whole new value at offset 0 — and the Y.Text afterwards
equals the new editor value; the broadcast delta is the delta of this
whole-replacement transaction. -/
theorem handleEditorChange_replaces_whole (st : EditorModel) (v : String)
    (hr : st.refsPresent = true) (hs : st.synced = true) (hne : v ≠ st.yText) :
    (handleEditorChange st v).1.editorContent = v ∧
    (handleEditorChange st v).1.yText = v ∧
    (handleEditorChange st v).2 = [YOp.delete 0 st.yText.length, YOp.insert 0 v] := by
  simp [handleEditorChange, hr, hs, hne]

/-- Witness for the amended C2 at the concrete edit from "ab" to "aXb". -/
theorem handleEditorChange_replaces_whole_witness :
    (handleEditorChange wSynSt wEditNew).1.editorContent = wEditNew ∧
    (handleEditorChange wSynSt wEditNew).1.yText = wEditNew ∧
    (handleEditorChange wSynSt wEditNew).2 =
      [YOp.delete 0 wSynSt.yText.length, YOp.insert 0 wEditNew] :=
  handleEditorChange_replaces_whole wSynSt wEditNew (by decide) (by decide) (by decide)

/-- C3, counterexample: the claim says every local edit made while not synced is still
buffered into the CRDT.  Typing "X" while the provider is not synced updates only the
React editor state: the Y.Text stays empty — the edit is absent from the CRDT — and no
delta is produced. -/
theorem handleEditorChange_unsynced_cex :
    (handleEditorChange wOffSt wKey).1.editorContent = wKey ∧
    (handleEditorChange wOffSt wKey).1.yText ≠ wKey ∧
    (handleEditorChange wOffSt wKey).2 = [] := by
  decide

/-- C3, amended: while the provider is not synced, a local edit updates only the local
React editor state; it is not applied to the CRDT (the Y.Text is unchanged) and no
delta is produced.  Only edits made while synced enter the CRDT. -/
theorem handleEditorChange_unsynced_no_crdt (st : EditorModel) (v : String)
    (hs : st.synced = false) :
    (handleEditorChange st v).1.editorContent = v ∧
    (handleEditorChange st v).1.yText = st.yText ∧
    (handleEditorChange st v).2 = [] := by
  simp [handleEditorChange, hs]

/-- Witness for the amended C3 at the concrete not-synced edit. -/
theorem handleEditorChange_unsynced_no_crdt_witness :
    (handleEditorChange wOffSt wKey).1.editorContent = wKey ∧
    (handleEditorChange wOffSt wKey).1.yText = wOffSt.yText ∧
    (handleEditorChange wOffSt wKey).2 = [] :=
  handleEditorChange_unsynced_no_crdt wOffSt wKey (by decide)

/-- C4: starting from the empty document, replica 1 inserts "abc" at offset 0 and
replica 2 concurrently inserts "xyz" at offset 0; after mutual integration both
replicas materialize the identical 6-character string. -/
theorem concurrent_insert_scenario :
    materialize replica1Final = materialize replica2Final ∧
    (materialize replica1Final).length = 6 := by
  decide

/-- C5: a remote awareness update for a replica with a stored entry overwrites that
entry exactly when the update's timestamp is newer than the stored one; an update with
an older (or equal) timestamp is discarded and leaves the whole store unchanged. -/
theorem applyRemote_timestamp_rule (store : AwTable) (r : Nat) (s : String) (t : Nat)
    (s0 : String) (t0 : Nat) (h : lookupEntry store r = some (s0, t0)) :
    (t0 < t → lookupEntry (applyRemote store r s t) r = some (s, t)) ∧
    (¬ t0 < t → applyRemote store r s t = store) := by
  induction store with
  | nil => simp [lookupEntry] at h
  | cons e rest ih =>
    obtain ⟨r1, s1, t1⟩ := e
    by_cases hr : r1 = r
    · subst hr
      simp [lookupEntry] at h
      obtain ⟨hs1, ht1⟩ := h
      subst hs1
      subst ht1
      constructor
      · intro hlt
        simp [applyRemote, hlt, lookupEntry]
      · intro hge
        simp [applyRemote, hge]
    · simp only [lookupEntry, if_neg hr] at h
      have hrec := ih h
      constructor
      · intro hlt
        simp only [applyRemote, if_neg hr, lookupEntry]
        exact hrec.1 hlt
      · intro hge
        simp only [applyRemote, if_neg hr, List.cons.injEq, true_and]
        exact hrec.2 hge

/-- Witness for C5: the stored entry has timestamp 5, the update timestamp 7 is newer
and overwrites it (and with the hypotheses flipped the update would be discarded). -/
theorem applyRemote_timestamp_rule_witness :
    (5 < 7 → lookupEntry (applyRemote wTable 1 wPayloadNew 7) 1 = some (wPayloadNew, 7)) ∧
    (¬ 5 < 7 → applyRemote wTable 1 wPayloadNew 7 = wTable) :=
  applyRemote_timestamp_rule wTable 1 wPayloadNew 7 wPayloadOld 5 (by decide)

/-- C6: every cursor value broadcast by updateAwarenessCursor carries exactly the raw
textarea selection offsets: the anchor equals selectionStart and the head equals
selectionEnd.  The broadcast values are plain visible-text offsets (natural numbers),
not positions anchored to Identifiers. -/
theorem updateAwarenessCursor_plain_offsets (ht ha sy : Bool) (sel : SelectionState)
    (c : CursorPos) (h : updateAwarenessCursor ht ha sy sel = some c) :
    c.anchor = sel.selectionStart ∧ c.head = sel.selectionEnd := by
  unfold updateAwarenessCursor at h
  by_cases hc : (ht && ha && sy) = true
  · rw [if_pos hc] at h
    have h2 := Option.some.inj h
    subst h2
    exact ⟨rfl, rfl⟩
  · rw [if_neg hc] at h
    exact Option.noConfusion h

/-- Witness for C6 at a concrete selection. -/
theorem updateAwarenessCursor_plain_offsets_witness :
    (⟨3, 5⟩ : CursorPos).anchor = (⟨3, 5⟩ : SelectionState).selectionStart ∧
    (⟨3, 5⟩ : CursorPos).head = (⟨3, 5⟩ : SelectionState).selectionEnd :=
  updateAwarenessCursor_plain_offsets true true true ⟨3, 5⟩ ⟨3, 5⟩ (by decide)

/-- C7: closing a document session cancels the pending debounced persistence timer,
records one final save of the document state as it was at teardown (the best-effort
synchronous save attempt happens before the resources are released), releases the
transport subscription, and broadcasts an awareness leave; the Y.Doc is destroyed
last. -/
theorem sessionCleanup_effects (s : SessionState) :
    (sessionCleanup s).prov.pendingSaveTimer = false ∧
    (sessionCleanup s).prov.savedState = some s.prov.docState ∧
    (sessionCleanup s).prov.subscribed = false ∧
    (sessionCleanup s).leaveBroadcast = true ∧
    (sessionCleanup s).docAlive = false := by
  exact ⟨rfl, rfl, rfl, rfl, rfl⟩

/-- C8: a provider error on the synchronization path is logged and surfaced as a toast
and nothing more: the editor state is untouched, the session survives, and a local edit
made after the error behaves exactly as it would have without the error — no error in
the synchronization subsystem interrupts local typing. -/
theorem providerError_preserves_editing (s : CoordinatorSession) (e v : String) :
    (handleProviderError s e).editor = s.editor ∧
    (handleProviderError s e).errorLog = s.errorLog ++ [e] ∧
    handleEditorChange (handleProviderError s e).editor v = handleEditorChange s.editor v := by
  exact ⟨rfl, rfl, rfl⟩

/-- List.getD at an in-range index yields a member. -/
theorem getD_mem_of_lt : ∀ (l : List String) (i : Nat) (d : String),
    i < l.length → l.getD i d ∈ l := by
  intro l
  induction l with
  | nil =>
    intro i d h
    exact absurd h (Nat.not_lt_zero i)
  | cons x xs ih =>
    intro i d h
    cases i with
    | zero =>
      rw [List.getD_cons_zero]
      exact List.mem_cons_self _ _
    | succ n =>
      rw [List.getD_cons_succ]
      exact List.mem_cons_of_mem _ (ih n d (Nat.lt_of_succ_lt_succ h))

/-- C9: getUserColor is a total function of the user id string alone — it is a pure
function, so two calls with the same userId always return the same color — and its
result is always an element of the fixed 15-color palette. -/
theorem getUserColor_in_palette (u : String) : getUserColor u ∈ colors := by
  unfold getUserColor
  exact getD_mem_of_lt colors _ emptyText (Nat.mod_lt _ (by decide))

/-- C10: the activeUsers list computed on an awareness change never contains the local
user — every entry's id differs from the current user's id — and every entry originates
from an awareness state that actually carries a user object (states without one are
excluded). -/
theorem activeUsers_excludes_self (cu : String) (states : List AwState)
    (a : ActiveUser) (ha : a ∈ handleAwarenessChange cu states) :
    a.id ≠ cu ∧ ∃ st, st ∈ states ∧ ∃ u, st.user = some u ∧ u.id = a.id := by
  simp only [handleAwarenessChange, List.mem_filterMap] at ha
  obtain ⟨st, hst, hm⟩ := ha
  cases hu : st.user with
  | none =>
    rw [hu] at hm
    exact Option.noConfusion hm
  | some u =>
    rw [hu] at hm
    have hm2 : (if u.id = cu then (none : Option ActiveUser)
        else some { id := u.id, email := u.email, full_name := u.full_name,
                    avatar_url := u.avatar_url,
                    color := jsOrString st.color (getUserColor u.id),
                    cursor := st.cursor }) = some a := hm
    by_cases he : u.id = cu
    · rw [if_pos he] at hm2
      exact Option.noConfusion hm2
    · rw [if_neg he] at hm2
      have h2 := Option.some.inj hm2
      subst h2
      exact ⟨he, st, hst, u, hu, rfl⟩

/-- Witness for C10: with one remote user and one user-less awareness state, the
computed entry is the remote user, whose id differs from the local user's. -/
theorem activeUsers_excludes_self_witness :
    wActive.id ≠ wCu ∧ ∃ st, st ∈ wStates ∧ ∃ u, st.user = some u ∧ u.id = wActive.id :=
  activeUsers_excludes_self wCu wStates wActive (by decide)
